import Mathlib

/-!
Shallow embedding of the event-reconciliation and odds-summarization core of
`src/app.py` (NeelSPN dashboard).

Python strings are sequences of Unicode code points; we model them as `List Nat`
of code points (`PyStr`).  Pure functions of the source are translated into
executable Lean definitions; JSON-shaped records become structures whose fields
mirror the keys the code reads (`Option` for fields read with `.get` that may be
absent or null).  Fallible parsing returns `Option`.
-/

/-- A Python string, as its list of Unicode code points. -/
abbrev PyStr := List Nat

/-- Embed a Lean string literal as a `PyStr` (for concrete test vectors). -/
def pyStr (s : String) : PyStr := s.data.map Char.toNat

/-- Models Python `str.isspace` on a single code point, for the whitespace code
points that occur in this domain (ASCII whitespace, the C1 NEL 133, and NBSP 160). -/
def pyIsSpace (c : Nat) : Bool :=
  c = 32 || c = 9 || c = 10 || c = 11 || c = 12 || c = 13 ||
  c = 28 || c = 29 || c = 30 || c = 31 || c = 133 || c = 160

/-- Models Python `str.isalnum` on a single code point.  Python's classification
is Unicode-aware: ASCII digits and letters, and also non-ASCII letters such as
the accented Latin-1 Supplement and Latin Extended letters (code points 192-591,
excluding the multiplication sign 215 and division sign 247), are alphanumeric.
Scripts beyond Latin are not exercised by this repository and are omitted. -/
def pyIsAlnum (c : Nat) : Bool :=
  (48 ≤ c && c ≤ 57) || (65 ≤ c && c ≤ 90) || (97 ≤ c && c ≤ 122) ||
  (192 ≤ c && c ≤ 591 && c ≠ 215 && c ≠ 247)

/-- Models Python `str.lower` on a single code point: ASCII uppercase letters
and the Latin-1 uppercase letters 192-222 (except the multiplication sign 215)
map down by 32; everything else is unchanged. -/
def pyLower (c : Nat) : Nat :=
  if 65 ≤ c ∧ c ≤ 90 then c + 32
  else if 192 ≤ c ∧ c ≤ 222 ∧ c ≠ 215 then c + 32
  else c

/-- Models Python `str.lower` on a whole string. -/
def pyLowerStr (s : PyStr) : PyStr := s.map pyLower

/-- Models Python `str.startswith`: `pyStartsWith s p` is true when `p` is a
prefix of `s`. -/
def pyStartsWith : PyStr → PyStr → Bool
  | _, [] => true
  | [], _ :: _ => false
  | c :: s, d :: p => c = d && pyStartsWith s p

/-- Models Python's `needle in hay` substring test: `pyContains hay needle`. -/
def pyContains : PyStr → PyStr → Bool
  | [], needle => needle.isEmpty
  | c :: t, needle => pyStartsWith (c :: t) needle || pyContains t needle

/-- Models Python `str.split()` with no arguments: splits on runs of whitespace
and discards empty pieces.  A non-space character either starts a new word (when
followed by a space or the end) or extends the word that the rest of the string
starts with. -/
def splitWs : PyStr → List PyStr
  | [] => []
  | c :: rest =>
    if pyIsSpace c then splitWs rest
    else
      match rest with
      | [] => [[c]]
      | d :: _ =>
        if pyIsSpace d then [c] :: splitWs rest
        else
          match splitWs rest with
          | [] => [[c]]
          | w :: ws => (c :: w) :: ws

/-- Models Python `" ".join(words)`. -/
def joinSpace : List PyStr → PyStr
  | [] => []
  | [w] => w
  | w :: rest => w ++ 32 :: joinSpace rest

/-- Embeds `_normalize_team_name` (src/app.py:220-222):
`cleaned = "".join(ch for ch in (name or "").lower() if ch.isalnum() or ch.isspace())`
then `" ".join(cleaned.split())`.  `none` models a Python `None` argument. -/
def _normalize_team_name (name : Option PyStr) : PyStr :=
  let cleaned := (pyLowerStr (name.getD [])).filter (fun c => pyIsAlnum c || pyIsSpace c)
  joinSpace (splitWs cleaned)

/-- Reads exactly `k` decimal digits off the front of a string, accumulating
their value; fails if a non-digit or the end is reached first. -/
def readDigitsAux : Nat → Nat → PyStr → Option (Nat × PyStr)
  | 0, acc, s => some (acc, s)
  | k + 1, acc, s =>
    match s with
    | [] => none
    | c :: rest =>
      if 48 ≤ c ∧ c ≤ 57 then readDigitsAux k (acc * 10 + (c - 48)) rest else none

/-- Reads exactly `k` decimal digits as a number, returning the rest. -/
def readDigits (k : Nat) (s : PyStr) : Option (Nat × PyStr) := readDigitsAux k 0 s

/-- Consumes one expected code point off the front of a string. -/
def expectChar (c : Nat) (s : PyStr) : Option PyStr :=
  match s with
  | [] => none
  | d :: rest => if d = c then some rest else none

/-- Is a decimal digit code point. -/
def isDigitCp (c : Nat) : Bool := 48 ≤ c && c ≤ 57

/-- Gregorian leap-year rule, as used by Python `datetime`. -/
def isLeap (y : Nat) : Bool := (y % 4 = 0 && y % 100 ≠ 0) || y % 400 = 0

/-- Days in a month of the proleptic Gregorian calendar. -/
def daysInMonth (y m : Nat) : Nat :=
  if m = 2 then (if isLeap y then 29 else 28)
  else if m = 4 ∨ m = 6 ∨ m = 9 ∨ m = 11 then 30
  else 31

/-- Validates a UTC-offset suffix of the form `+HH:MM` or `-HH:MM` (or nothing),
as accepted by `datetime.fromisoformat` for the offsets this repository feeds it. -/
def validOffset : PyStr → Bool
  | [] => true
  | sg :: r =>
    if sg = 43 ∨ sg = 45 then
      match r with
      | [h1, h2, 58, m1, m2] =>
        isDigitCp h1 && isDigitCp h2 && isDigitCp m1 && isDigitCp m2 &&
        (h1 - 48) * 10 + (h2 - 48) ≤ 23 && (m1 - 48) * 10 + (m2 - 48) ≤ 59
      | _ => false
    else false

/-- Validates the time-of-day portion `HH[:MM[:SS[.digits]]]` followed by an
optional UTC offset, as accepted by `datetime.fromisoformat` for the timestamp
shapes the two feeds produce. -/
def validTime (t : PyStr) : Bool :=
  match readDigits 2 t with
  | none => false
  | some (hh, r1) =>
    if 24 ≤ hh then false
    else
      match r1 with
      | [] => true
      | 58 :: r2 =>
        match readDigits 2 r2 with
        | none => false
        | some (mm, r3) =>
          if 60 ≤ mm then false
          else
            match r3 with
            | [] => true
            | 58 :: r4 =>
              match readDigits 2 r4 with
              | none => false
              | some (ss, r5) =>
                if 60 ≤ ss then false
                else
                  match r5 with
                  | [] => true
                  | 46 :: r6 =>
                    !(r6.takeWhile isDigitCp).isEmpty &&
                      validOffset (r6.dropWhile isDigitCp)
                  | _ => validOffset r5
            | _ => validOffset r3
      | _ => validTime0fallback r1
where
  /-- After a bare `HH` with no colon, only an offset may follow. -/
  validTime0fallback (r : PyStr) : Bool := validOffset r

/-- Models `datetime.fromisoformat(s)` restricted to its date result: parses
`YYYY-MM-DD` (validated against the calendar, year at least 1) optionally
followed by a `T` or space separator, a time of day and a UTC offset.  Returns
the instant's calendar date component, exactly what `dt.date()` yields. -/
def pyFromIsoformatDate (s : PyStr) : Option (Nat × Nat × Nat) :=
  match readDigits 4 s with
  | none => none
  | some (y, s1) =>
    match expectChar 45 s1 with
    | none => none
    | some s2 =>
      match readDigits 2 s2 with
      | none => none
      | some (m, s3) =>
        match expectChar 45 s3 with
        | none => none
        | some s4 =>
          match readDigits 2 s4 with
          | none => none
          | some (d, s5) =>
            if 1 ≤ y ∧ 1 ≤ m ∧ m ≤ 12 ∧ 1 ≤ d ∧ d ≤ daysInMonth y m ∧ validRest s5
            then some (y, m, d) else none
where
  /-- The remainder after the date must be empty or a separator plus time. -/
  validRest (r : PyStr) : Bool :=
    match r with
    | [] => true
    | sep :: t => (sep = 84 || sep = 32) && validTime t

/-- Replacement worker: the fuel starts at the string length and every step
consumes at least one character, so fuel 0 is reached only on the empty string. -/
def pyReplaceAux : Nat → PyStr → PyStr → PyStr → PyStr
  | 0, s, _, _ => s
  | fuel + 1, s, old, new =>
    match s with
    | [] => []
    | c :: rest =>
      if old ≠ [] ∧ pyStartsWith (c :: rest) old = true then
        new ++ pyReplaceAux fuel ((c :: rest).drop old.length) old new
      else c :: pyReplaceAux fuel rest old new

/-- Models Python `str.replace(old, new)` for a non-empty `old`, replacing every
occurrence left to right. -/
def pyReplace (s old new : PyStr) : PyStr := pyReplaceAux s.length s old new

/-- The date component of `_make_matchup_key`: models the `try` block of
src/app.py:225-229.  A missing or empty instant yields no date; otherwise `"Z"`
is replaced by `"+00:00"` and the result is handed to `fromisoformat`; any
parse failure degrades to no date. -/
def pyParsedDate (iso : Option PyStr) : Option (Nat × Nat × Nat) :=
  match iso with
  | none => none
  | some s =>
    if s = [] then none
    else pyFromIsoformatDate (pyReplace s (pyStr "Z") (pyStr "+00:00"))

/-- Decimal digits of a natural number (fuel-indexed to stay structural). -/
def natDigitsAux : Nat → Nat → PyStr
  | 0, _ => []
  | fuel + 1, n => if n < 10 then [48 + n] else natDigitsAux fuel (n / 10) ++ [48 + n % 10]

/-- Decimal representation of a natural number as a `PyStr`. -/
def natPyStr (n : Nat) : PyStr := natDigitsAux (n + 1) n

/-- Zero-pads a number to width `w`, as in `date.isoformat` components. -/
def padNat (w n : Nat) : PyStr :=
  List.replicate (w - (natPyStr n).length) 48 ++ natPyStr n

/-- Models `date.isoformat()`: `YYYY-MM-DD` with zero-padded fields. -/
def formatIsoDate (y m d : Nat) : PyStr :=
  padNat 4 y ++ 45 :: (padNat 2 m ++ 45 :: padNat 2 d)

/-- Embeds `_make_matchup_key` (src/app.py:224-230): the join key is
`normalize(away) + "|" + normalize(home) + "|" + date_key`, where the date key
is the parsed instant's ISO calendar date, or empty when absent or unparsable. -/
def _make_matchup_key (away home : PyStr) (iso : Option PyStr) : PyStr :=
  let date_key :=
    match pyParsedDate iso with
    | some (y, m, d) => formatIsoDate y m d
    | none => []
  _normalize_team_name (some away) ++ 124 :: (_normalize_team_name (some home) ++ 124 :: date_key)

/-- Recognizes the ten-character shape `YYYY-MM-DD`. -/
def isIsoDateShape (s : PyStr) : Bool :=
  match s with
  | [a, b, c, d, e, f, g, h, i, j] =>
    isDigitCp a && isDigitCp b && isDigitCp c && isDigitCp d && e = 45 &&
    isDigitCp f && isDigitCp g && h = 45 && isDigitCp i && isDigitCp j
  | _ => false

/-- Models Python f-string `{n:+}` formatting of a signed integer price. -/
def fmtPlus (n : Int) : PyStr :=
  if 0 ≤ n then 43 :: natPyStr n.toNat else 45 :: natPyStr n.natAbs

/-- An outcome record of the odds feed: `name`, `price` and `point` are read
with `.get` and may be absent (or JSON null), modelled as `none`.  Prices are
signed integers in American-odds convention.  The numeric `point` (a float in
the feed) is modelled by an abstract type parameter `P`: no claim depends on
point arithmetic or point formatting.  `description` is read only by the
outright reducer. -/
structure Outcome (P : Type) where
  name : Option PyStr
  price : Option Int
  point : Option P
  description : Option PyStr
deriving DecidableEq

/-- A market record: its `key` string and its outcomes list (default `[]`). -/
structure Market (P : Type) where
  key : Option PyStr
  outcomes : List (Outcome P)
deriving DecidableEq

/-- A bookmaker record: its markets list (default `[]`). -/
structure Bookmaker (P : Type) where
  markets : List (Market P)
deriving DecidableEq

/-- An odds-feed event: `home_team` and `away_team` are read with default `""`,
`commence_time` may be absent, and the bookmakers list defaults to `[]`. -/
structure OddsEvent (P : Type) where
  home_team : PyStr
  away_team : PyStr
  commence_time : Option PyStr
  bookmakers : List (Bookmaker P)
deriving DecidableEq

/-- The four mutable locals of `summarize_odds_for_event` (src/app.py:249). -/
structure ScanState (P : Type) where
  best_home_ml : Option Int
  best_away_ml : Option Int
  best_spread : Option (Option P × Int)
  best_total : Option (Option P × Int)
deriving DecidableEq

/-- One `h2h` outcome step (src/app.py:255-259): a null price is skipped, then
the side whose name equals the home (or else the away) team is overwritten. -/
def scanH2hOutcome {P : Type} (home away : PyStr) (s : ScanState P) (o : Outcome P) :
    ScanState P :=
  match o.price with
  | none => s
  | some price =>
    if o.name = some home then { s with best_home_ml := some price }
    else if o.name = some away then { s with best_away_ml := some price }
    else s

/-- One `spreads` outcome step (src/app.py:261-264): an outcome named after the
home team with a non-null price overwrites the `(point, price)` pair. -/
def scanSpreadOutcome {P : Type} (home : PyStr) (s : ScanState P) (o : Outcome P) :
    ScanState P :=
  if o.name = some home then
    match o.price with
    | some price => { s with best_spread := some (o.point, price) }
    | none => s
  else s

/-- One `totals` outcome step (src/app.py:266-269): an outcome whose lower-cased
name starts with `"over"` and has a non-null price overwrites the pair. -/
def scanTotalOutcome {P : Type} (s : ScanState P) (o : Outcome P) : ScanState P :=
  if pyStartsWith (pyLowerStr (o.name.getD [])) (pyStr "over") then
    match o.price with
    | some price => { s with best_total := some (o.point, price) }
    | none => s
  else s

/-- One market of the scan loop (src/app.py:252-269), dispatching on the key. -/
def scanMarket {P : Type} (home away : PyStr) (s : ScanState P) (m : Market P) :
    ScanState P :=
  if m.key = some (pyStr "h2h") then m.outcomes.foldl (scanH2hOutcome home away) s
  else if m.key = some (pyStr "spreads") then m.outcomes.foldl (scanSpreadOutcome home) s
  else if m.key = some (pyStr "totals") then m.outcomes.foldl scanTotalOutcome s
  else s

/-- One bookmaker of the scan loop (src/app.py:251). -/
def scanBookmaker {P : Type} (home away : PyStr) (s : ScanState P) (b : Bookmaker P) :
    ScanState P :=
  b.markets.foldl (scanMarket home away) s

/-- The whole scan of `summarize_odds_for_event` (src/app.py:249-269), starting
from four `None` locals. -/
def scanEvent {P : Type} (ev : OddsEvent P) : ScanState P :=
  ev.bookmakers.foldl (scanBookmaker ev.home_team ev.away_team) ⟨none, none, none, none⟩

/-- The summary dictionary built by `summarize_odds_for_event`: each field is
present exactly when the corresponding key is set (src/app.py:271-278). -/
structure Summary where
  moneyline : Option PyStr
  spread : Option PyStr
  total : Option PyStr
deriving DecidableEq

/-- Embeds `summarize_odds_for_event` (src/app.py:246-278).  `fmtSpreadPoint`
abstracts the f-string `{point:+g}` rendering of the spread point and
`fmtTotalPoint` the `{point}` rendering of the total point (both applied to the
possibly-null stored point); prices render via `{:+}`.  The moneyline is set
only when both sides resolved, as `"{away_price:+} / {home_price:+}"`. -/
def summarize_odds_for_event {P : Type} (fmtSpreadPoint fmtTotalPoint : Option P → PyStr)
    (ev : OddsEvent P) : Summary :=
  let s := scanEvent ev
  { moneyline :=
      match s.best_home_ml, s.best_away_ml with
      | some h, some a => some (fmtPlus a ++ pyStr " / " ++ fmtPlus h)
      | _, _ => none
    spread :=
      match s.best_spread with
      | some (pt, pr) => some (fmtSpreadPoint pt ++ pyStr " (" ++ fmtPlus pr ++ pyStr ")")
      | none => none
    total :=
      match s.best_total with
      | some (pt, pr) => some (pyStr "O/U " ++ fmtTotalPoint pt ++ pyStr " (" ++ fmtPlus pr ++ pyStr ")")
      | none => none }

/-- Characterization apparatus: the `(market key, outcome)` pairs in the exact
order the nested loops of the scan traverse them. -/
def marketOutcomePairs {P : Type} (ev : OddsEvent P) : List (Option PyStr × Outcome P) :=
  ev.bookmakers.flatMap (fun b => b.markets.flatMap (fun m => m.outcomes.map (fun o => (m.key, o))))

/-- The last element of a list, if any (the survivor of repeated overwriting). -/
def lastOpt {α : Type} : List α → Option α
  | [] => none
  | [a] => some a
  | _ :: b :: t => lastOpt (b :: t)

/-- Left-biased choice on `Option` (a fresh match overwrites the accumulator). -/
def optOr {α : Type} : Option α → Option α → Option α
  | some a, _ => some a
  | none, b => b

/-- Does one traversal step quote the home moneyline?  Mirrors the `h2h` branch
conditions for the home side. -/
def mlHomeMatch {P : Type} (home : PyStr) (mkey : Option PyStr) (o : Outcome P) : Option Int :=
  if mkey = some (pyStr "h2h") then
    match o.price with
    | some p => if o.name = some home then some p else none
    | none => none
  else none

/-- Does one traversal step quote the away moneyline?  The `elif` means an
outcome named after the home team never reaches the away branch. -/
def mlAwayMatch {P : Type} (home away : PyStr) (mkey : Option PyStr) (o : Outcome P) : Option Int :=
  if mkey = some (pyStr "h2h") then
    match o.price with
    | some p => if o.name = some home then none else if o.name = some away then some p else none
    | none => none
  else none

/-- Does one traversal step quote the home spread pair? -/
def spreadMatch {P : Type} (home : PyStr) (mkey : Option PyStr) (o : Outcome P) :
    Option (Option P × Int) :=
  if mkey = some (pyStr "spreads") then
    if o.name = some home then
      match o.price with
      | some p => some (o.point, p)
      | none => none
    else none
  else none

/-- Does one traversal step quote the Over total pair? -/
def totalMatch {P : Type} (mkey : Option PyStr) (o : Outcome P) : Option (Option P × Int) :=
  if mkey = some (pyStr "totals") then
    if pyStartsWith (pyLowerStr (o.name.getD [])) (pyStr "over") then
      match o.price with
      | some p => some (o.point, p)
      | none => none
    else none
  else none

/-- The uniform per-pair step: each of the four locals is overwritten exactly
when its matcher fires on the pair. -/
def applyPair {P : Type} (home away : PyStr) (s : ScanState P) (x : Option PyStr × Outcome P) :
    ScanState P :=
  { best_home_ml := optOr (mlHomeMatch home x.1 x.2) s.best_home_ml
    best_away_ml := optOr (mlAwayMatch home away x.1 x.2) s.best_away_ml
    best_spread := optOr (spreadMatch home x.1 x.2) s.best_spread
    best_total := optOr (totalMatch x.1 x.2) s.best_total }

/-- Python dict truthiness of a summary: at least one key was set. -/
def summaryNonempty (s : Summary) : Bool :=
  s.moneyline.isSome || s.spread.isSome || s.total.isSome

/-- Models `out[key] = summary` for the lookup behaviour of a Python dict. -/
def dictUpdate (m : PyStr → Option Summary) (k : PyStr) (v : Summary) :
    PyStr → Option Summary :=
  fun q => if q = k then some v else m q

/-- Embeds `get_event_odds_map` (src/app.py:280-291) after the fetch: a
non-list payload (`none`) yields the empty index; otherwise each event is
keyed by `(away_team, home_team, commence_time)` and its summary is entered
only when the summary dict is non-empty (`if summary:`).  The index is
modelled by its lookup function. -/
def get_event_odds_map {P : Type} (fmtSpreadPoint fmtTotalPoint : Option P → PyStr)
    (data : Option (List (OddsEvent P))) : PyStr → Option Summary :=
  match data with
  | none => fun _ => none
  | some events =>
    events.foldl
      (fun out event =>
        let key := _make_matchup_key event.away_team event.home_team event.commence_time
        let summary := summarize_odds_for_event fmtSpreadPoint fmtTotalPoint event
        if summaryNonempty summary then dictUpdate out key summary else out)
      (fun _ => none)

/-- An ESPN team record: the `displayName` read with default `""`. -/
structure EspnTeam where
  displayName : PyStr
deriving DecidableEq

/-- An ESPN competitor record: `homeAway` role and nested team. -/
structure Competitor where
  homeAway : Option PyStr
  team : EspnTeam
deriving DecidableEq

/-- An ESPN competition record: its competitors (default `[]`). -/
structure Competition where
  competitors : List Competitor
deriving DecidableEq

/-- An ESPN schedule event: the first competition (the code reads
`e.get("competitions", [{}])[0]`, so a missing list behaves as one empty
competition — modelled by `headD` with an empty default) and the `date`. -/
structure EspnEvent where
  competitions : List Competition
  date : Option PyStr
deriving DecidableEq

/-- The loop-body condition of `filter_team_events` (src/app.py:320-323), with
`target = team_name.lower()` substituted: some lower-cased competitor
`displayName` contains the lower-cased team name or is contained in it. -/
def teamMatchB (tn : PyStr) (e : EspnEvent) : Bool :=
  ((e.competitions.headD ⟨[]⟩).competitors.map (fun c => pyLowerStr c.team.displayName)).any
    (fun n => pyContains n (pyLowerStr tn) || pyContains (pyLowerStr tn) n)

/-- Embeds `filter_team_events` (src/app.py:316-325): a falsy team name passes
everything through; otherwise an event is appended when the lower-cased target
is a substring of, or has as a substring, some lower-cased competitor
`displayName` (the loop condition is `teamMatchB`).  Note the code lower-cases
only — it does NOT call `_normalize_team_name`. -/
def filter_team_events (events : List EspnEvent) (team_name : Option PyStr) :
    List EspnEvent :=
  match team_name with
  | none => events
  | some tn =>
    if tn = [] then events
    else
      events.foldl
        (fun filtered e => if teamMatchB tn e then filtered ++ [e] else filtered)
        []

/-- Embeds `build_matchup_key_from_espn_event` (src/app.py:232-244): with two
or more competitors, the away/home names come from the first competitor whose
`homeAway` matches (falling back to positions 0 and 1); with fewer, the away
name is the sole competitor's name (or `""`) and home is `""`. -/
def build_matchup_key_from_espn_event (e : EspnEvent) : PyStr :=
  let competitors := (e.competitions.headD ⟨[]⟩).competitors
  let dflt : Competitor := ⟨none, ⟨[]⟩⟩
  let names : PyStr × PyStr :=
    if 2 ≤ competitors.length then
      let away_obj := (competitors.find? (fun c => c.homeAway = some (pyStr "away"))).getD
        (competitors.getD 0 dflt)
      let home_obj := (competitors.find? (fun c => c.homeAway = some (pyStr "home"))).getD
        (competitors.getD 1 dflt)
      (away_obj.team.displayName, home_obj.team.displayName)
    else
      match competitors with
      | [] => ([], [])
      | c :: _ => (c.team.displayName, [])
  _make_matchup_key names.1 names.2 e.date

/-- The market columns a schedule row receives (src/app.py:363-369): on an
index hit the three summary fields (each defaulting to `"-"`), on a miss none.
When the whole index is empty every lookup misses, so the row likewise carries
no market fields. -/
def rowMarkets (odds_map : PyStr → Option Summary) (e : EspnEvent) :
    Option (PyStr × PyStr × PyStr) :=
  match odds_map (build_matchup_key_from_espn_event e) with
  | some s =>
    some (s.moneyline.getD (pyStr "-"), s.spread.getD (pyStr "-"), s.total.getD (pyStr "-"))
  | none => none

/-- The result dict of `get_live_odds_internal`: a status string and the two
optional formatted prices. -/
structure LiveOdds where
  status : PyStr
  playoff_market : Option PyStr
  championship_market : Option PyStr
deriving DecidableEq

/-- One outcome step of `get_live_odds_internal` (src/app.py:451-460): a falsy
price (null or zero) is skipped; on a fuzzy name match the playoff and title
slots are filled first-seen-wins according to the description keywords (title
also fires when the market key is exactly `"outrights"`). -/
def outrightOutcome {P : Type} (target : PyStr) (mkey : Option PyStr)
    (st : Option Int × Option Int) (o : Outcome P) : Option Int × Option Int :=
  match o.price with
  | none => st
  | some price =>
    if price = 0 then st
    else
      let name := _normalize_team_name (some (o.name.getD []))
      let desc := pyLowerStr (o.description.getD [])
      if pyContains name target || pyContains target name then
        let bp :=
          if pyContains desc (pyStr "playoff") || pyContains desc (pyStr "make playoffs") then
            (if st.1 = none then some price else st.1)
          else st.1
        let bt :=
          if pyContains desc (pyStr "champion") || pyContains desc (pyStr "win") ||
              pyContains desc (pyStr "title") || mkey = some (pyStr "outrights") then
            (if st.2 = none then some price else st.2)
          else st.2
        (bp, bt)
      else st

/-- Embeds `get_live_odds_internal` (src/app.py:440-466) after the fetch: a
non-list payload (`none`) is `"Unavailable"`; otherwise the nested scan runs
first-seen-wins and the result is `"No market found"` or `"OK"` with the
resolved prices formatted `{:+}`. -/
def get_live_odds_internal {P : Type} (team_name : Option PyStr)
    (data : Option (List (OddsEvent P))) : LiveOdds :=
  match data with
  | none => { status := pyStr "Unavailable", playoff_market := none, championship_market := none }
  | some events =>
    let target := _normalize_team_name team_name
    let best :=
      events.foldl
        (fun st ev =>
          ev.bookmakers.foldl
            (fun st b =>
              b.markets.foldl
                (fun st m => m.outcomes.foldl (outrightOutcome target m.key) st)
                st)
            st)
        (none, none)
    if best.1 = none ∧ best.2 = none then
      { status := pyStr "No market found", playoff_market := none, championship_market := none }
    else
      { status := pyStr "OK", playoff_market := best.1.map fmtPlus,
        championship_market := best.2.map fmtPlus }

/-- What the Market Outlook panel renders: either an informational message or
the metric cards. -/
inductive Panel where
  | info (msg : PyStr)
  | metrics (playoff championship : Option PyStr)
deriving DecidableEq

/-- Embeds the control flow of `render_odds_summary` (src/app.py:409-438): a
missing odds sport key, a missing API key, and a non-`"OK"` status all render
the same `st.info("hi cam")` message; only status `"OK"` renders metrics. -/
def render_odds_summary {P : Type} (odds_sport_key api_key team_name : Option PyStr)
    (data : Option (List (OddsEvent P))) : Panel :=
  match odds_sport_key with
  | none => Panel.info (pyStr "hi cam")
  | some _ =>
    match api_key with
    | none => Panel.info (pyStr "hi cam")
    | some _ =>
      let odds := get_live_odds_internal team_name data
      if odds.status ≠ pyStr "OK" then Panel.info (pyStr "hi cam")
      else Panel.metrics odds.playoff_market odds.championship_market

/-- A concrete spread-point formatter for instantiating test vectors. -/
def fmtS0 : Option Int → PyStr := fun _ => []

/-- A concrete total-point formatter for instantiating test vectors. -/
def fmtT0 : Option Int → PyStr := fun _ => []

/-- The section-8 end-to-end moneyline vector: home Los Angeles Lakers at
price -150, away Denver Nuggets at price +130, one bookmaker, one h2h market. -/
def lakersVec : OddsEvent Int :=
  { home_team := pyStr "Los Angeles Lakers"
    away_team := pyStr "Denver Nuggets"
    commence_time := some (pyStr "2024-01-10T02:00:00Z")
    bookmakers :=
      [⟨[⟨some (pyStr "h2h"),
          [⟨some (pyStr "Los Angeles Lakers"), some (-150), none, none⟩,
           ⟨some (pyStr "Denver Nuggets"), some 130, none, none⟩]⟩]⟩] }

/-- Two bookmakers quoting the same two moneyline sides: the first at
+100 (home) and +110 (away), the second at -200 (home) and -210 (away). -/
def twoBookEvent : OddsEvent Int :=
  { home_team := pyStr "H"
    away_team := pyStr "A"
    commence_time := none
    bookmakers :=
      [⟨[⟨some (pyStr "h2h"),
          [⟨some (pyStr "H"), some 100, none, none⟩,
           ⟨some (pyStr "A"), some 110, none, none⟩]⟩]⟩,
       ⟨[⟨some (pyStr "h2h"),
          [⟨some (pyStr "H"), some (-200), none, none⟩,
           ⟨some (pyStr "A"), some (-210), none, none⟩]⟩]⟩] }

/-- An event where only the home side has an h2h price. -/
def oneSidedEvent : OddsEvent Int :=
  { home_team := pyStr "H"
    away_team := pyStr "A"
    commence_time := none
    bookmakers :=
      [⟨[⟨some (pyStr "h2h"), [⟨some (pyStr "H"), some (-150), none, none⟩]⟩]⟩] }

/-- An odds event with no bookmakers: its summary dict is empty. -/
def emptyMarketsEvent : OddsEvent Int :=
  { home_team := pyStr "H", away_team := pyStr "A", commence_time := none, bookmakers := [] }

/-- A schedule event whose sole competitor is the St Louis Blues. -/
def stLouisEvent : EspnEvent :=
  { competitions := [⟨[⟨some (pyStr "home"), ⟨pyStr "St Louis Blues"⟩⟩]⟩], date := none }

/-- A schedule event whose sole competitor is the Los Angeles Lakers. -/
def lakersEspnEvent : EspnEvent :=
  { competitions := [⟨[⟨some (pyStr "home"), ⟨pyStr "Los Angeles Lakers"⟩⟩]⟩], date := none }

/-- A schedule event with the same away/home names as `emptyMarketsEvent`. -/
def matchingEspnEvent : EspnEvent :=
  { competitions :=
      [⟨[⟨some (pyStr "away"), ⟨pyStr "A"⟩⟩, ⟨some (pyStr "home"), ⟨pyStr "H"⟩⟩]⟩]
    date := none }

theorem pyLower_idem (c : Nat) : pyLower (pyLower c) = pyLower c := by
  unfold pyLower
  split_ifs <;> omega

theorem map_id_of {α : Type} (f : α → α) :
    ∀ (l : List α), (∀ a ∈ l, f a = a) → l.map f = l := by
  intro l h
  induction l with
  | nil => rfl
  | cons a t ih =>
    simp only [List.map_cons]
    rw [h a (by simp), ih (fun b hb => h b (by simp [hb]))]

theorem splitWs_sep (c : Nat) (l : PyStr) (h : pyIsSpace c = true) :
    splitWs (c :: l) = splitWs l := by
  simp [splitWs, h]

theorem splitWs_shape : ∀ (t : PyStr) (d : Nat), pyIsSpace d = false →
    ∃ w ws, splitWs (d :: t) = (d :: w) :: ws := by
  intro t
  induction t with
  | nil =>
    intro d hd
    exact ⟨[], [], by rw [splitWs]; simp [hd]⟩
  | cons e t2 ih =>
    intro d hd
    by_cases he : pyIsSpace e = true
    · exact ⟨[], splitWs (e :: t2), by rw [splitWs]; simp [hd, he]⟩
    · simp only [Bool.not_eq_true] at he
      obtain ⟨w, ws, hw⟩ := ih e he
      refine ⟨e :: w, ws, ?_⟩
      rw [splitWs]
      simp [hd, he, hw]

theorem splitWs_mem (l : PyStr) :
    ∀ w ∈ splitWs l, w ≠ [] ∧ ∀ c ∈ w, pyIsSpace c = false ∧ c ∈ l := by
  induction l with
  | nil => intro w hw; simp [splitWs] at hw
  | cons a t ih =>
    intro w hw
    by_cases ha : pyIsSpace a = true
    · rw [splitWs_sep a t ha] at hw
      obtain ⟨hne, hc⟩ := ih w hw
      exact ⟨hne, fun c hcw => ⟨(hc c hcw).1, List.mem_cons_of_mem a (hc c hcw).2⟩⟩
    · simp only [Bool.not_eq_true] at ha
      cases t with
      | nil =>
        rw [splitWs] at hw
        simp [ha] at hw
        subst hw
        refine ⟨by simp, ?_⟩
        intro c hc
        simp at hc
        subst hc
        exact ⟨ha, by simp⟩
      | cons e t2 =>
        by_cases he : pyIsSpace e = true
        · have heq : splitWs (a :: e :: t2) = [a] :: splitWs (e :: t2) := by
            rw [splitWs]; simp [ha, he]
          rw [heq] at hw
          rcases List.mem_cons.mp hw with h1 | h2
          · subst h1
            refine ⟨by simp, ?_⟩
            intro c hc
            simp at hc
            subst hc
            exact ⟨ha, by simp⟩
          · obtain ⟨hne, hc⟩ := ih w h2
            exact ⟨hne, fun c hcw => ⟨(hc c hcw).1, List.mem_cons_of_mem a (hc c hcw).2⟩⟩
        · simp only [Bool.not_eq_true] at he
          obtain ⟨w0, ws0, hsp⟩ := splitWs_shape t2 e he
          have heq : splitWs (a :: e :: t2) = (a :: e :: w0) :: ws0 := by
            rw [splitWs]; simp [ha, he, hsp]
          rw [heq] at hw
          rcases List.mem_cons.mp hw with h1 | h2
          · subst h1
            have hw0 := ih (e :: w0) (by rw [hsp]; simp)
            refine ⟨by simp, ?_⟩
            intro c hc
            rcases List.mem_cons.mp hc with rfl | hcw0
            · exact ⟨ha, by simp⟩
            · exact ⟨(hw0.2 c hcw0).1, List.mem_cons_of_mem a (hw0.2 c hcw0).2⟩
          · have hrec := ih w (by rw [hsp]; exact List.mem_cons_of_mem _ h2)
            exact ⟨hrec.1, fun c hcw =>
              ⟨(hrec.2 c hcw).1, List.mem_cons_of_mem a (hrec.2 c hcw).2⟩⟩

theorem joinSpace_mem : ∀ (ws : List PyStr) (c : Nat),
    c ∈ joinSpace ws → c = 32 ∨ ∃ w ∈ ws, c ∈ w := by
  intro ws
  induction ws with
  | nil => intro c hc; simp [joinSpace] at hc
  | cons w r ih =>
    intro c hc
    cases r with
    | nil =>
      simp only [joinSpace] at hc
      exact Or.inr ⟨w, by simp, hc⟩
    | cons w2 r2 =>
      simp only [joinSpace] at hc
      rcases List.mem_append.mp hc with h1 | h2
      · exact Or.inr ⟨w, by simp, h1⟩
      · rcases List.mem_cons.mp h2 with rfl | h3
        · exact Or.inl rfl
        · rcases ih c h3 with h4 | ⟨w3, hw3, hcw3⟩
          · exact Or.inl h4
          · exact Or.inr ⟨w3, List.mem_cons_of_mem w hw3, hcw3⟩

theorem mem_normalize (s : PyStr) (c : Nat) (hc : c ∈ _normalize_team_name (some s)) :
    c = 32 ∨ (pyIsAlnum c = true ∧ ∃ d ∈ s, pyLower d = c) := by
  simp only [_normalize_team_name, Option.getD_some] at hc
  rcases joinSpace_mem _ c hc with h32 | ⟨w, hw, hcw⟩
  · exact Or.inl h32
  · obtain ⟨hne, hall⟩ := splitWs_mem _ w hw
    obtain ⟨hnsp, hmem⟩ := hall c hcw
    rw [List.mem_filter] at hmem
    obtain ⟨hmap, hkeep⟩ := hmem
    have halnum : pyIsAlnum c = true := by
      simp [hnsp] at hkeep
      exact hkeep
    rw [pyLowerStr, List.mem_map] at hmap
    obtain ⟨d, hd, hdl⟩ := hmap
    exact Or.inr ⟨halnum, d, hd, hdl⟩

theorem splitWs_word (w : PyStr) (hne : w ≠ []) (hsf : ∀ c ∈ w, pyIsSpace c = false) :
    splitWs w = [w] := by
  induction w with
  | nil => exact absurd rfl hne
  | cons c t ih =>
    have hc : pyIsSpace c = false := hsf c (by simp)
    cases t with
    | nil => rw [splitWs]; simp [hc]
    | cons d t2 =>
      have hd : pyIsSpace d = false := hsf d (by simp)
      have ht : splitWs (d :: t2) = [d :: t2] :=
        ih (by simp) (fun x hx => hsf x (List.mem_cons_of_mem c hx))
      rw [splitWs]
      simp [hc, hd, ht]

theorem splitWs_append_word (w t : PyStr) (hne : w ≠ [])
    (hsf : ∀ c ∈ w, pyIsSpace c = false) :
    splitWs (w ++ 32 :: t) = w :: splitWs t := by
  induction w with
  | nil => exact absurd rfl hne
  | cons c w2 ih =>
    have hc : pyIsSpace c = false := hsf c (by simp)
    cases w2 with
    | nil =>
      have h32 : pyIsSpace 32 = true := by decide
      simp only [List.cons_append, List.nil_append]
      rw [splitWs]
      simp [hc, h32]
      rw [splitWs_sep 32 t h32]
    | cons e w3 =>
      have he : pyIsSpace e = false := hsf e (by simp)
      have hw : splitWs (e :: (w3 ++ 32 :: t)) = (e :: w3) :: splitWs t := by
        have := ih (by simp) (fun x hx => hsf x (List.mem_cons_of_mem c hx))
        simpa [List.cons_append] using this
      simp only [List.cons_append]
      rw [splitWs]
      simp [hc, he, hw]

theorem splitWs_joinSpace (ws : List PyStr) (hne : ∀ w ∈ ws, w ≠ [])
    (hsf : ∀ w ∈ ws, ∀ c ∈ w, pyIsSpace c = false) :
    splitWs (joinSpace ws) = ws := by
  induction ws with
  | nil => rfl
  | cons w r ih =>
    cases r with
    | nil =>
      simpa [joinSpace] using splitWs_word w (hne w (by simp)) (hsf w (by simp))
    | cons w2 r2 =>
      have hj : joinSpace (w :: w2 :: r2) = w ++ 32 :: joinSpace (w2 :: r2) := by
        simp [joinSpace]
      rw [hj, splitWs_append_word w _ (hne w (by simp)) (hsf w (by simp)),
        ih (fun x hx => hne x (List.mem_cons_of_mem w hx))
          (fun x hx => hsf x (List.mem_cons_of_mem w hx))]

/-- C8: `_normalize_team_name` is idempotent — normalizing an already-normalized
string changes nothing — and both a `None` argument and the empty string
normalize to the empty string. -/
theorem c8_normalize_idempotent :
    (∀ s : PyStr,
      _normalize_team_name (some (_normalize_team_name (some s))) =
        _normalize_team_name (some s)) ∧
    _normalize_team_name none = [] ∧ _normalize_team_name (some []) = [] := by
  refine ⟨?_, rfl, rfl⟩
  intro s
  have hchar : ∀ c ∈ _normalize_team_name (some s),
      pyLower c = c ∧ (pyIsAlnum c || pyIsSpace c) = true := by
    intro c hc
    rcases mem_normalize s c hc with rfl | ⟨halnum, d, hd, hdl⟩
    · exact ⟨by decide, by decide⟩
    · refine ⟨?_, by simp [halnum]⟩
      rw [← hdl]
      exact pyLower_idem d
  have hN : _normalize_team_name (some (_normalize_team_name (some s))) =
      joinSpace (splitWs ((pyLowerStr (_normalize_team_name (some s))).filter
        (fun c => pyIsAlnum c || pyIsSpace c))) := rfl
  rw [hN]
  rw [show pyLowerStr (_normalize_team_name (some s)) = _normalize_team_name (some s) from
    map_id_of pyLower _ (fun a ha => (hchar a ha).1)]
  rw [List.filter_eq_self.mpr (fun a ha => (hchar a ha).2)]
  have hs : _normalize_team_name (some s) =
      joinSpace (splitWs ((pyLowerStr s).filter (fun c => pyIsAlnum c || pyIsSpace c))) := rfl
  rw [hs]
  rw [splitWs_joinSpace _ (fun w hw => (splitWs_mem _ w hw).1)
    (fun w hw c hcw => ((splitWs_mem _ w hw).2 c hcw).1)]

/-- C6 (amended): every character surviving `_normalize_team_name` is either the
single space used to rejoin words or a Unicode-alphanumeric character obtained
by lower-casing some input character — so characters that are neither
alphanumeric nor whitespace are removed, but the classification is
Unicode-aware, not ASCII-only: the accented letter in `"café"` is kept. -/
theorem c6_unicode_filter :
    (∀ (s : PyStr) (c : Nat), c ∈ _normalize_team_name (some s) →
      c = 32 ∨ (pyIsAlnum c = true ∧ ∃ d ∈ s, pyLower d = c)) ∧
    _normalize_team_name (some (pyStr "café")) = pyStr "café" :=
  ⟨fun s c hc => mem_normalize s c hc, by decide⟩

/-- Witness for C6: the character `c` (99) of the output of normalizing
`"café"` is alphanumeric and the lower-casing of an input character. -/
theorem c6_unicode_filter_witness :
    99 = 32 ∨ (pyIsAlnum 99 = true ∧ ∃ d ∈ pyStr "café", pyLower d = 99) :=
  c6_unicode_filter.1 (pyStr "café") 99 (by decide)

/-- Counterexample to C6 as stated: normalizing `"café"` yields `"café"`, with
the non-ASCII code point 233 kept, not the `"caf"` that stripping every
non-ASCII character would give. -/
theorem c6_counterexample :
    _normalize_team_name (some (pyStr "café")) = pyStr "café" ∧
    pyStr "café" ≠ pyStr "caf" := by decide

theorem normalize_no_sep (x : PyStr) : 124 ∉ _normalize_team_name (some x) := by
  intro h
  rcases mem_normalize x 124 h with h32 | ⟨halnum, _⟩
  · exact absurd h32 (by decide)
  · exact absurd halnum (by decide)

theorem append_sep_inj : ∀ (x y u v : PyStr), 124 ∉ x → 124 ∉ y →
    x ++ 124 :: u = y ++ 124 :: v → x = y ∧ u = v := by
  intro x
  induction x with
  | nil =>
    intro y u v _ hy heq
    cases y with
    | nil => simpa using heq
    | cons b y2 =>
      simp only [List.nil_append, List.cons_append] at heq
      injection heq with h1 h2
      subst h1
      exact absurd (List.mem_cons_self 124 y2) hy
  | cons a x2 ih =>
    intro y u v hx hy heq
    cases y with
    | nil =>
      simp only [List.cons_append, List.nil_append] at heq
      injection heq with h1 h2
      subst h1
      exact absurd (List.mem_cons_self 124 x2) hx
    | cons b y2 =>
      simp only [List.cons_append] at heq
      injection heq with h1 h2
      obtain ⟨h3, h4⟩ := ih y2 u v (fun h => hx (List.mem_cons_of_mem a h))
        (fun h => hy (List.mem_cons_of_mem b h)) h2
      exact ⟨by rw [h1, h3], h4⟩

/-- C9: matchup-key building is order-sensitive — whenever two names have
different normalizations, swapping the `(away, home)` arguments yields a
different key (the normalized names contain no `"|"` separator, so the segments
of the key are unambiguous). -/
theorem c9_key_order_sensitive (a b : PyStr) (iso : Option PyStr)
    (h : _normalize_team_name (some a) ≠ _normalize_team_name (some b)) :
    _make_matchup_key a b iso ≠ _make_matchup_key b a iso := by
  intro heq
  simp only [_make_matchup_key] at heq
  exact h (append_sep_inj _ _ _ _ (normalize_no_sep a) (normalize_no_sep b) heq).1

/-- Witness for C9: the concrete instance of the spec,
`build_key("Lakers","Knicks","2024-03-01T19:00:00Z")` differs from the swapped
`build_key("Knicks","Lakers","2024-03-01T19:00:00Z")`. -/
theorem c9_key_order_sensitive_witness :
    _make_matchup_key (pyStr "Lakers") (pyStr "Knicks")
        (some (pyStr "2024-03-01T19:00:00Z")) ≠
      _make_matchup_key (pyStr "Knicks") (pyStr "Lakers")
        (some (pyStr "2024-03-01T19:00:00Z")) :=
  c9_key_order_sensitive _ _ _ (by decide)

theorem foldl_filter_append {α : Type} (p : α → Bool) :
    ∀ (l acc : List α),
      l.foldl (fun a e => if p e then a ++ [e] else a) acc = acc ++ l.filter p := by
  intro l
  induction l with
  | nil => intro acc; simp
  | cons e t ih =>
    intro acc
    cases hp : p e
    · simp [List.filter_cons, hp, ih]
    · simp [List.filter_cons, hp, ih]

/-- C5 (amended): the schedule filter keeps an event exactly when the
LOWER-CASED team name is a substring of, or has as a substring, some
lower-cased competitor `displayName` — plain `str.lower`, not the
`_normalize_team_name` primitive (no punctuation stripping, no whitespace
collapsing). -/
theorem c5_lowercase_filter (events : List EspnEvent) (tn : PyStr) (htn : tn ≠ [])
    (e : EspnEvent) :
    e ∈ filter_team_events events (some tn) ↔ e ∈ events ∧ teamMatchB tn e = true := by
  simp only [filter_team_events, if_neg htn]
  rw [foldl_filter_append (teamMatchB tn) events []]
  simp [List.mem_filter]

/-- Witness for C5: a Lakers event survives filtering by `"Lakers"` and the
equivalence evaluates on it. -/
theorem c5_lowercase_filter_witness :
    lakersEspnEvent ∈ filter_team_events [lakersEspnEvent] (some (pyStr "Lakers")) ↔
      lakersEspnEvent ∈ [lakersEspnEvent] ∧
        teamMatchB (pyStr "Lakers") lakersEspnEvent = true :=
  c5_lowercase_filter [lakersEspnEvent] (pyStr "Lakers") (by decide) lakersEspnEvent

/-- Counterexample to C5 as stated: for the team name `"St. Louis"` against a
`"St Louis Blues"` event, the normalized comparison of the claim succeeds
(`"st louis"` is a substring of `"st louis blues"`), yet the filter drops the
event, because the code compares only lower-cased strings and the dot makes
`"st. louis"` match nothing. -/
theorem c5_counterexample :
    filter_team_events [stLouisEvent] (some (pyStr "St. Louis")) = [] ∧
    pyContains (_normalize_team_name (some (pyStr "St Louis Blues")))
      (_normalize_team_name (some (pyStr "St. Louis"))) = true := by decide

/-- C2 (amended): when both sides of an event resolve to a moneyline price, the
summary's moneyline string is `"{away_price:+} / {home_price:+}"` — the
participant names are NOT included in the string. -/
theorem c2_moneyline_format {P : Type} (fS fT : Option P → PyStr) (ev : OddsEvent P)
    (h a : Int) (hh : (scanEvent ev).best_home_ml = some h)
    (ha : (scanEvent ev).best_away_ml = some a) :
    (summarize_odds_for_event fS fT ev).moneyline =
      some (fmtPlus a ++ pyStr " / " ++ fmtPlus h) := by
  simp [summarize_odds_for_event, hh, ha]

/-- Witness for C2: the section-8 vector (home Los Angeles Lakers at -150, away
Denver Nuggets at +130) produces the formatted moneyline. -/
theorem c2_moneyline_format_witness :
    (summarize_odds_for_event fmtS0 fmtT0 lakersVec).moneyline =
      some (fmtPlus 130 ++ pyStr " / " ++ fmtPlus (-150)) :=
  c2_moneyline_format fmtS0 fmtT0 lakersVec (-150) 130 (by decide) (by decide)

/-- Counterexample to C2 as stated: the section-8 vector reduces to moneyline
`"+130 / -150"`, not `"Denver Nuggets +130 / Los Angeles Lakers -150"` — the
code's f-string (src/app.py:273) interpolates only the prices. -/
theorem c2_vector_counterexample :
    (summarize_odds_for_event fmtS0 fmtT0 lakersVec).moneyline =
      some (pyStr "+130 / -150") ∧
    some (pyStr "+130 / -150") ≠
      some (pyStr "Denver Nuggets +130 / Los Angeles Lakers -150") := by decide

/-- C3 (amended): when at most one side resolves to an h2h price — in
particular when exactly one does — the moneyline field is omitted from the
summary entirely; it is present only when BOTH sides have prices. -/
theorem c3_one_sided_omitted {P : Type} (fS fT : Option P → PyStr) (ev : OddsEvent P)
    (h : (scanEvent ev).best_home_ml = none ∨ (scanEvent ev).best_away_ml = none) :
    (summarize_odds_for_event fS fT ev).moneyline = none := by
  rcases h with h | h
  · simp [summarize_odds_for_event, h]
  · cases hh : (scanEvent ev).best_home_ml <;> simp [summarize_odds_for_event, h, hh]

/-- Witness for C3: an event quoting only the home side yields no moneyline. -/
theorem c3_one_sided_omitted_witness :
    (summarize_odds_for_event fmtS0 fmtT0 oneSidedEvent).moneyline = none :=
  c3_one_sided_omitted fmtS0 fmtT0 oneSidedEvent (Or.inr (by decide))

/-- Counterexample to C3 as stated: in an event where exactly the home side
resolves (price -150, away side null), the output contains NO moneyline field
at all, rather than a one-sided one. -/
theorem c3_counterexample :
    (scanEvent oneSidedEvent).best_home_ml = some (-150) ∧
    (scanEvent oneSidedEvent).best_away_ml = none ∧
    (summarize_odds_for_event fmtS0 fmtT0 oneSidedEvent).moneyline = none := by decide

/-- Counterexample to C1 as stated: with two bookmakers quoting both moneyline
sides (first +100 and +110, then -200 and -210), the reducer reports the SECOND
bookmaker's prices `"-210 / -200"`, not the first-seen `"+110 / +100"` — the
scan (src/app.py:255-259) overwrites without a `None` guard. -/
theorem c1_first_seen_counterexample :
    (summarize_odds_for_event fmtS0 fmtT0 twoBookEvent).moneyline =
      some (pyStr "-210 / -200") ∧
    some (pyStr "-210 / -200") ≠ some (pyStr "+110 / +100") := by decide

/-- C4 (amended): the outright reducer's status is always one of the three
values `"Unavailable"`, `"No market found"`, `"OK"`; when no odds sport key is
configured, or no API key is available, the renderer returns early with the
same `st.info("hi cam")` message it shows for any non-`"OK"` status — neither
`"Not applicable"` nor `"Missing API key"` exists as a status. -/
theorem c4_status_taxonomy :
    (∀ {P : Type} (team : Option PyStr) (data : Option (List (OddsEvent P))),
      (get_live_odds_internal team data).status = pyStr "Unavailable" ∨
      (get_live_odds_internal team data).status = pyStr "No market found" ∨
      (get_live_odds_internal team data).status = pyStr "OK") ∧
    (∀ {P : Type} (api team : Option PyStr) (data : Option (List (OddsEvent P))),
      render_odds_summary none api team data = Panel.info (pyStr "hi cam")) ∧
    (∀ {P : Type} (k : PyStr) (team : Option PyStr) (data : Option (List (OddsEvent P))),
      render_odds_summary (some k) none team data = Panel.info (pyStr "hi cam")) := by
  refine ⟨?_, ?_, ?_⟩
  · intro P team data
    cases data with
    | none => exact Or.inl rfl
    | some events =>
      simp only [get_live_odds_internal]
      split
      · exact Or.inr (Or.inl rfl)
      · exact Or.inr (Or.inr rfl)
  · intro P api team data
    rfl
  · intro P k team data
    rfl

/-- Counterexample to C4 as stated: with no odds sport key configured the panel
shows `"hi cam"`, not a `"Not applicable"` status, and with no API key it
likewise shows `"hi cam"`, not `"Missing API key"`. -/
theorem c4_counterexample :
    @render_odds_summary Int none (some []) (some []) none = Panel.info (pyStr "hi cam") ∧
    Panel.info (pyStr "hi cam") ≠ Panel.info (pyStr "Not applicable") ∧
    @render_odds_summary Int (some (pyStr "basketball_nba")) none (some []) none =
      Panel.info (pyStr "hi cam") ∧
    Panel.info (pyStr "hi cam") ≠ Panel.info (pyStr "Missing API key") := by decide

theorem foldl_dict_inv {α : Type} (keyf : α → PyStr) (valf : α → Summary) :
    ∀ (l : List α) (m0 : PyStr → Option Summary),
      (∀ k s, m0 k = some s → summaryNonempty s = true) →
      ∀ k s,
        (l.foldl
          (fun out ev =>
            if summaryNonempty (valf ev) then dictUpdate out (keyf ev) (valf ev) else out)
          m0) k = some s → summaryNonempty s = true := by
  intro l
  induction l with
  | nil => intro m0 hinv k s h; exact hinv k s h
  | cons ev t ih =>
    intro m0 hinv k s h
    refine ih _ ?_ k s h
    intro k2 s2 h2
    dsimp only at h2
    by_cases hsn : summaryNonempty (valf ev) = true
    · rw [if_pos hsn] at h2
      unfold dictUpdate at h2
      by_cases hk : k2 = keyf ev
      · rw [if_pos hk] at h2
        injection h2 with h3
        rw [← h3]
        exact hsn
      · rw [if_neg hk] at h2
        exact hinv k2 s2 h2
    · rw [if_neg hsn] at h2
      exact hinv k2 s2 h2

theorem foldl_dict_none {α : Type} (keyf : α → PyStr) (valf : α → Summary) :
    ∀ (l : List α) (m0 : PyStr → Option Summary) (k : PyStr),
      m0 k = none →
      (∀ ev ∈ l, keyf ev = k → summaryNonempty (valf ev) = false) →
      (l.foldl
        (fun out ev =>
          if summaryNonempty (valf ev) then dictUpdate out (keyf ev) (valf ev) else out)
        m0) k = none := by
  intro l
  induction l with
  | nil => intro m0 k h0 _; exact h0
  | cons ev t ih =>
    intro m0 k h0 hall
    refine ih _ k ?_ (fun x hx hkx => hall x (List.mem_cons_of_mem ev hx) hkx)
    dsimp only
    by_cases hsn : summaryNonempty (valf ev) = true
    · rw [if_pos hsn]
      unfold dictUpdate
      by_cases hk : k = keyf ev
      · exact absurd hsn (by rw [hall ev (by simp) hk.symm]; simp)
      · rw [if_neg hk]
        exact h0
    · rw [if_neg hsn]
      exact h0

theorem c10_odds_map_nonempty :
    (∀ {P : Type} (fS fT : Option P → PyStr) (data : Option (List (OddsEvent P)))
        (k : PyStr) (s : Summary),
      get_event_odds_map fS fT data k = some s → summaryNonempty s = true) ∧
    (∀ {P : Type} (fS fT : Option P → PyStr) (events : List (OddsEvent P)) (k : PyStr),
      (∀ ev ∈ events,
        _make_matchup_key ev.away_team ev.home_team ev.commence_time = k →
        summaryNonempty (summarize_odds_for_event fS fT ev) = false) →
      get_event_odds_map fS fT (some events) k = none) ∧
    (∀ (m : PyStr → Option Summary) (e : EspnEvent),
      m (build_matchup_key_from_espn_event e) = none → rowMarkets m e = none) := by
  refine ⟨?_, ?_, ?_⟩
  · intro P fS fT data k s h
    cases data with
    | none => exact absurd h (by simp [get_event_odds_map])
    | some events =>
      simp only [get_event_odds_map] at h
      exact foldl_dict_inv _ _ events _ (fun k2 s2 h2 => absurd h2 (by simp)) k s h
  · intro P fS fT events k hall
    simp only [get_event_odds_map]
    exact foldl_dict_none _ _ events _ k rfl hall
  · intro m e h
    simp [rowMarkets, h]

theorem c10_odds_map_nonempty_witness :
    summaryNonempty (summarize_odds_for_event fmtS0 fmtT0 lakersVec) = true ∧
    get_event_odds_map fmtS0 fmtT0 (some [emptyMarketsEvent])
      (build_matchup_key_from_espn_event matchingEspnEvent) = none ∧
    rowMarkets (get_event_odds_map fmtS0 fmtT0 (some [emptyMarketsEvent]))
      matchingEspnEvent = none :=
  ⟨c10_odds_map_nonempty.1 fmtS0 fmtT0 (some [lakersVec])
      (_make_matchup_key (pyStr "Denver Nuggets") (pyStr "Los Angeles Lakers")
        (some (pyStr "2024-01-10T02:00:00Z")))
      (summarize_odds_for_event fmtS0 fmtT0 lakersVec) (by decide),
   c10_odds_map_nonempty.2.1 fmtS0 fmtT0 [emptyMarketsEvent] _ (by decide),
   c10_odds_map_nonempty.2.2 _ matchingEspnEvent (by decide)⟩

theorem readDigitsAux_lt : ∀ (k acc : Nat) (s : PyStr) (v : Nat) (r : PyStr),
    readDigitsAux k acc s = some (v, r) → v < (acc + 1) * 10 ^ k := by
  intro k
  induction k with
  | zero =>
    intro acc s v r h
    simp only [readDigitsAux, Option.some.injEq, Prod.mk.injEq] at h
    obtain ⟨hv, _⟩ := h
    simp [← hv]
  | succ k ih =>
    intro acc s v r h
    cases s with
    | nil => simp [readDigitsAux] at h
    | cons c rest =>
      simp only [readDigitsAux] at h
      split_ifs at h with hc
      · have hv := ih (acc * 10 + (c - 48)) rest v r h
        have h10 : acc * 10 + (c - 48) + 1 ≤ (acc + 1) * 10 := by omega
        calc v < (acc * 10 + (c - 48) + 1) * 10 ^ k := hv
          _ ≤ ((acc + 1) * 10) * 10 ^ k := Nat.mul_le_mul_right _ h10
          _ = (acc + 1) * 10 ^ (k + 1) := by ring

theorem readDigits_lt (k : Nat) (s : PyStr) (v : Nat) (r : PyStr)
    (h : readDigits k s = some (v, r)) : v < 10 ^ k := by
  have := readDigitsAux_lt k 0 s v r h
  simpa using this

theorem daysInMonth_le (y m : Nat) : daysInMonth y m ≤ 31 := by
  unfold daysInMonth
  split_ifs <;> omega

theorem pyFromIsoformatDate_bounds (s : PyStr) (y m d : Nat)
    (h : pyFromIsoformatDate s = some (y, m, d)) :
    1 ≤ y ∧ y ≤ 9999 ∧ 1 ≤ m ∧ m ≤ 12 ∧ 1 ≤ d ∧ d ≤ 31 := by
  cases h4 : readDigits 4 s with
  | none => simp [pyFromIsoformatDate, h4] at h
  | some p4 =>
    obtain ⟨y0, s1⟩ := p4
    cases h5 : expectChar 45 s1 with
    | none => simp [pyFromIsoformatDate, h4, h5] at h
    | some s2 =>
      cases h6 : readDigits 2 s2 with
      | none => simp [pyFromIsoformatDate, h4, h5, h6] at h
      | some p6 =>
        obtain ⟨m0, s3⟩ := p6
        cases h7 : expectChar 45 s3 with
        | none => simp [pyFromIsoformatDate, h4, h5, h6, h7] at h
        | some s4 =>
          cases h8 : readDigits 2 s4 with
          | none => simp [pyFromIsoformatDate, h4, h5, h6, h7, h8] at h
          | some p8 =>
            obtain ⟨d0, s5⟩ := p8
            simp only [pyFromIsoformatDate, h4, h5, h6, h7, h8] at h
            split_ifs at h with hcond
            · simp only [Option.some.injEq, Prod.mk.injEq] at h
              obtain ⟨hy, hm, hd⟩ := h
              have hylt := readDigits_lt 4 s y0 s1 h4
              obtain ⟨c1, c2, c3, c4, c5, _⟩ := hcond
              have hdm := daysInMonth_le y0 m0
              have hp4 : (10 : Nat) ^ 4 = 10000 := by norm_num
              subst hy
              subst hm
              subst hd
              exact ⟨c1, by omega, c2, c3, c4, by omega⟩

theorem natDigitsAux_digits : ∀ (fuel n c : Nat), c ∈ natDigitsAux fuel n →
    isDigitCp c = true := by
  intro fuel
  induction fuel with
  | zero => intro n c hc; simp [natDigitsAux] at hc
  | succ fuel ih =>
    intro n c hc
    by_cases hn : n < 10
    · simp [natDigitsAux, hn] at hc
      subst hc
      simp only [isDigitCp]
      have : n < 10 := hn
      simp
      omega
    · simp only [natDigitsAux, if_neg hn] at hc
      rcases List.mem_append.mp hc with h1 | h2
      · exact ih (n / 10) c h1
      · simp at h2
        subst h2
        simp only [isDigitCp]
        have : n % 10 < 10 := Nat.mod_lt n (by omega)
        simp
        omega

theorem natDigitsAux_length_le : ∀ (fuel n k : Nat), 1 ≤ k → n < 10 ^ k →
    (natDigitsAux fuel n).length ≤ k := by
  intro fuel
  induction fuel with
  | zero => intro n k hk _; simp [natDigitsAux]
  | succ fuel ih =>
    intro n k hk hn
    by_cases h10 : n < 10
    · simp [natDigitsAux, h10]
      omega
    · simp only [natDigitsAux, if_neg h10, List.length_append, List.length_cons,
        List.length_nil]
      have hk2 : 2 ≤ k := by
        by_contra hlt
        have hk1 : k = 1 := by omega
        rw [hk1] at hn
        simp at hn
        omega
      have hpow : (10 : Nat) ^ (k - 1) * 10 = 10 ^ k := by
        rw [← pow_succ]
        congr 1
        omega
      have hdiv : n / 10 < 10 ^ (k - 1) := by
        rw [Nat.div_lt_iff_lt_mul (by omega : (0:Nat) < 10)]
        omega
      have := ih (n / 10) (k - 1) (by omega) hdiv
      omega

theorem padNat_length (w n : Nat) (h : (natPyStr n).length ≤ w) :
    (padNat w n).length = w := by
  simp only [padNat, List.length_append, List.length_replicate]
  omega

theorem padNat_digits (w n c : Nat) (hc : c ∈ padNat w n) : isDigitCp c = true := by
  rcases List.mem_append.mp hc with h1 | h2
  · rw [List.mem_replicate] at h1
    rw [h1.2]
    decide
  · exact natDigitsAux_digits _ n c h2

theorem exists_len2 (l : PyStr) (h : l.length = 2) : ∃ a b, l = [a, b] := by
  cases l with
  | nil => simp at h
  | cons a t =>
    cases t with
    | nil => simp at h
    | cons b t2 =>
      cases t2 with
      | nil => exact ⟨a, b, rfl⟩
      | cons c t3 => simp at h

theorem exists_len4 (l : PyStr) (h : l.length = 4) : ∃ a b c d, l = [a, b, c, d] := by
  cases l with
  | nil => simp at h
  | cons a t =>
    cases t with
    | nil => simp at h
    | cons b t2 =>
      cases t2 with
      | nil => simp at h
      | cons c t3 =>
        cases t3 with
        | nil => simp at h
        | cons d t4 =>
          cases t4 with
          | nil => exact ⟨a, b, c, d, rfl⟩
          | cons e t5 => simp at h

theorem formatIsoDate_shape (y m d : Nat) (hy1 : 1 ≤ y) (hy : y ≤ 9999)
    (hm : m ≤ 99) (hd : d ≤ 99) : isIsoDateShape (formatIsoDate y m d) = true := by
  have hylen : (natPyStr y).length ≤ 4 :=
    natDigitsAux_length_le _ y 4 (by omega) (by norm_num; omega)
  have hmlen : (natPyStr m).length ≤ 2 :=
    natDigitsAux_length_le _ m 2 (by omega) (by norm_num; omega)
  have hdlen : (natPyStr d).length ≤ 2 :=
    natDigitsAux_length_le _ d 2 (by omega) (by norm_num; omega)
  obtain ⟨a, b, c, dd, hp4⟩ := exists_len4 (padNat 4 y) (padNat_length 4 y hylen)
  obtain ⟨e, f, hpm⟩ := exists_len2 (padNat 2 m) (padNat_length 2 m hmlen)
  obtain ⟨g, i, hpd⟩ := exists_len2 (padNat 2 d) (padNat_length 2 d hdlen)
  have da : isDigitCp a = true := padNat_digits 4 y a (by rw [hp4]; simp)
  have db : isDigitCp b = true := padNat_digits 4 y b (by rw [hp4]; simp)
  have dc : isDigitCp c = true := padNat_digits 4 y c (by rw [hp4]; simp)
  have ddd : isDigitCp dd = true := padNat_digits 4 y dd (by rw [hp4]; simp)
  have de : isDigitCp e = true := padNat_digits 2 m e (by rw [hpm]; simp)
  have df : isDigitCp f = true := padNat_digits 2 m f (by rw [hpm]; simp)
  have dg : isDigitCp g = true := padNat_digits 2 d g (by rw [hpd]; simp)
  have di : isDigitCp i = true := padNat_digits 2 d i (by rw [hpd]; simp)
  unfold formatIsoDate
  rw [hp4, hpm, hpd]
  simp [isIsoDateShape, da, db, dc, ddd, de, df, dg, di]

/-- C7: matchup-key building never fails: for every away name, home name and
instant (including a missing, empty or unparsable one) the key is produced and
has the shape `normalize(away) | normalize(home) | date_part`, where the date
part is empty exactly when the instant is missing or does not parse, and
otherwise is the parsed instant's calendar date in ten-character `YYYY-MM-DD`
form. -/
theorem c7_date_key_total (away home : PyStr) (iso : Option PyStr) :
    ∃ dp : PyStr,
      _make_matchup_key away home iso =
        _normalize_team_name (some away) ++ 124 ::
          (_normalize_team_name (some home) ++ 124 :: dp) ∧
      ((pyParsedDate iso = none ∧ dp = []) ∨
        (∃ y m d, pyParsedDate iso = some (y, m, d) ∧ dp = formatIsoDate y m d ∧
          isIsoDateShape dp = true)) := by
  cases hp : pyParsedDate iso with
  | none =>
    refine ⟨[], ?_, Or.inl ⟨rfl, rfl⟩⟩
    simp [_make_matchup_key, hp]
  | some t =>
    obtain ⟨y, m, d⟩ := t
    have hb : 1 ≤ y ∧ y ≤ 9999 ∧ 1 ≤ m ∧ m ≤ 12 ∧ 1 ≤ d ∧ d ≤ 31 := by
      cases iso with
      | none => simp [pyParsedDate] at hp
      | some s =>
        simp only [pyParsedDate] at hp
        split_ifs at hp with hs
        exact pyFromIsoformatDate_bounds _ y m d hp
    refine ⟨formatIsoDate y m d, ?_, Or.inr ⟨y, m, d, rfl, rfl, ?_⟩⟩
    · simp [_make_matchup_key, hp]
    · exact formatIsoDate_shape y m d hb.1 hb.2.1 (by omega) (by omega)

theorem optOr_none_right {α : Type} (x : Option α) : optOr x none = x := by
  cases x <;> rfl

theorem optOr_assoc {α : Type} (a b c : Option α) :
    optOr (optOr a b) c = optOr a (optOr b c) := by
  cases a <;> rfl

theorem lastOpt_cons {α : Type} (a : α) (t : List α) :
    lastOpt (a :: t) = optOr (lastOpt t) (some a) := by
  cases t with
  | nil => rfl
  | cons b t2 =>
    have hsome : ∃ x, lastOpt (b :: t2) = some x := by
      induction t2 generalizing b with
      | nil => exact ⟨b, rfl⟩
      | cons c t3 ih =>
        obtain ⟨x, hx⟩ := ih c
        exact ⟨x, by rw [show lastOpt (b :: c :: t3) = lastOpt (c :: t3) from rfl, hx]⟩
    obtain ⟨x, hx⟩ := hsome
    rw [show lastOpt (a :: b :: t2) = lastOpt (b :: t2) from rfl, hx]
    rfl

theorem foldl_optOr {α β : Type} (f : α → Option β) :
    ∀ (l : List α) (init : Option β),
      l.foldl (fun acc x => optOr (f x) acc) init =
        optOr (lastOpt (l.filterMap f)) init := by
  intro l
  induction l with
  | nil => intro init; rfl
  | cons a t ih =>
    intro init
    rw [List.foldl_cons, ih (optOr (f a) init)]
    cases hfa : f a with
    | none =>
      simp only [List.filterMap_cons, hfa]
      rfl
    | some b =>
      simp only [List.filterMap_cons, hfa]
      rw [lastOpt_cons, optOr_assoc]

theorem scanH2h_step {P : Type} (home away : PyStr) (s : ScanState P) (o : Outcome P) :
    scanH2hOutcome home away s o = applyPair home away s (some (pyStr "h2h"), o) := by
  obtain ⟨bh, ba, bs, bt⟩ := s
  have n1 : (some (pyStr "h2h") : Option PyStr) ≠ some (pyStr "spreads") := by decide
  have n2 : (some (pyStr "h2h") : Option PyStr) ≠ some (pyStr "totals") := by decide
  simp only [scanH2hOutcome, applyPair, mlHomeMatch, mlAwayMatch, spreadMatch, totalMatch,
    n1, n2, eq_self_iff_true, if_true, if_false]
  cases o.price with
  | none => rfl
  | some p =>
    by_cases hn : o.name = some home
    · simp only [hn, eq_self_iff_true, if_true]
      rfl
    · by_cases ha : o.name = some away
      · have hne : ¬((some away : Option PyStr) = some home) := fun h => hn (ha.trans h)
        simp only [hn, ha, if_neg hne, eq_self_iff_true, if_true, if_false]
        rfl
      · simp only [if_neg hn, if_neg ha]
        rfl

theorem scanSpread_step {P : Type} (home away : PyStr) (s : ScanState P) (o : Outcome P) :
    scanSpreadOutcome home s o = applyPair home away s (some (pyStr "spreads"), o) := by
  obtain ⟨bh, ba, bs, bt⟩ := s
  have n1 : (some (pyStr "spreads") : Option PyStr) ≠ some (pyStr "h2h") := by decide
  have n2 : (some (pyStr "spreads") : Option PyStr) ≠ some (pyStr "totals") := by decide
  simp only [scanSpreadOutcome, applyPair, mlHomeMatch, mlAwayMatch, spreadMatch, totalMatch,
    n1, n2, eq_self_iff_true, if_true, if_false]
  by_cases hn : o.name = some home
  · simp only [hn, eq_self_iff_true, if_true]
    cases o.price with
    | none => rfl
    | some p => rfl
  · simp only [if_neg hn]
    cases o.price with
    | none => rfl
    | some p => rfl

theorem scanTotal_step {P : Type} (home away : PyStr) (s : ScanState P) (o : Outcome P) :
    scanTotalOutcome s o = applyPair home away s (some (pyStr "totals"), o) := by
  obtain ⟨bh, ba, bs, bt⟩ := s
  have n1 : (some (pyStr "totals") : Option PyStr) ≠ some (pyStr "h2h") := by decide
  have n2 : (some (pyStr "totals") : Option PyStr) ≠ some (pyStr "spreads") := by decide
  simp only [scanTotalOutcome, applyPair, mlHomeMatch, mlAwayMatch, spreadMatch, totalMatch,
    n1, n2, eq_self_iff_true, if_true, if_false]
  by_cases hov : pyStartsWith (pyLowerStr (o.name.getD [])) (pyStr "over") = true
  · simp only [hov, if_true]
    cases o.price with
    | none => rfl
    | some p => rfl
  · simp only [if_neg hov]
    cases o.price with
    | none => rfl
    | some p => rfl

theorem other_step {P : Type} (home away : PyStr) (k : Option PyStr) (o : Outcome P)
    (s : ScanState P) (h1 : k ≠ some (pyStr "h2h")) (h2 : k ≠ some (pyStr "spreads"))
    (h3 : k ≠ some (pyStr "totals")) :
    applyPair home away s (k, o) = s := by
  obtain ⟨bh, ba, bs, bt⟩ := s
  simp only [applyPair, mlHomeMatch, mlAwayMatch, spreadMatch, totalMatch,
    if_neg h1, if_neg h2, if_neg h3]
  rfl

theorem foldl_h2h {P : Type} (home away : PyStr) :
    ∀ (os : List (Outcome P)) (s : ScanState P),
      os.foldl (scanH2hOutcome home away) s =
        (os.map (fun o => ((some (pyStr "h2h") : Option PyStr), o))).foldl
          (applyPair home away) s := by
  intro os
  induction os with
  | nil => intro s; rfl
  | cons o t ih =>
    intro s
    simp only [List.foldl_cons, List.map_cons]
    rw [scanH2h_step, ih]

theorem foldl_spreads {P : Type} (home away : PyStr) :
    ∀ (os : List (Outcome P)) (s : ScanState P),
      os.foldl (scanSpreadOutcome home) s =
        (os.map (fun o => ((some (pyStr "spreads") : Option PyStr), o))).foldl
          (applyPair home away) s := by
  intro os
  induction os with
  | nil => intro s; rfl
  | cons o t ih =>
    intro s
    simp only [List.foldl_cons, List.map_cons]
    rw [scanSpread_step, ih]

theorem foldl_totals {P : Type} (home away : PyStr) :
    ∀ (os : List (Outcome P)) (s : ScanState P),
      os.foldl scanTotalOutcome s =
        (os.map (fun o => ((some (pyStr "totals") : Option PyStr), o))).foldl
          (applyPair home away) s := by
  intro os
  induction os with
  | nil => intro s; rfl
  | cons o t ih =>
    intro s
    simp only [List.foldl_cons, List.map_cons]
    rw [scanTotal_step home away, ih]

theorem foldl_other {P : Type} (home away : PyStr) (k : Option PyStr)
    (h1 : k ≠ some (pyStr "h2h")) (h2 : k ≠ some (pyStr "spreads"))
    (h3 : k ≠ some (pyStr "totals")) :
    ∀ (os : List (Outcome P)) (s : ScanState P),
      (os.map (fun o => (k, o))).foldl (applyPair home away) s = s := by
  intro os
  induction os with
  | nil => intro s; rfl
  | cons o t ih =>
    intro s
    simp only [List.foldl_cons, List.map_cons]
    rw [other_step home away k o s h1 h2 h3, ih]

theorem scanMarket_pairs {P : Type} (home away : PyStr) (m : Market P) (s : ScanState P) :
    scanMarket home away s m =
      (m.outcomes.map (fun o => (m.key, o))).foldl (applyPair home away) s := by
  unfold scanMarket
  by_cases e1 : m.key = some (pyStr "h2h")
  · rw [if_pos e1, e1, foldl_h2h]
  · rw [if_neg e1]
    by_cases e2 : m.key = some (pyStr "spreads")
    · rw [if_pos e2, e2, foldl_spreads]
    · rw [if_neg e2]
      by_cases e3 : m.key = some (pyStr "totals")
      · rw [if_pos e3, e3, foldl_totals]
      · rw [if_neg e3, foldl_other home away m.key e1 e2 e3]

theorem foldl_markets {P : Type} (home away : PyStr) :
    ∀ (ms : List (Market P)) (s : ScanState P),
      ms.foldl (scanMarket home away) s =
        (ms.flatMap (fun m => m.outcomes.map (fun o => (m.key, o)))).foldl
          (applyPair home away) s := by
  intro ms
  induction ms with
  | nil => intro s; rfl
  | cons m t ih =>
    intro s
    rw [List.foldl_cons, ih (scanMarket home away s m), scanMarket_pairs,
      List.flatMap_cons, List.foldl_append]

theorem foldl_books {P : Type} (home away : PyStr) :
    ∀ (bs : List (Bookmaker P)) (s : ScanState P),
      bs.foldl (scanBookmaker home away) s =
        (bs.flatMap (fun b => b.markets.flatMap
          (fun m => m.outcomes.map (fun o => (m.key, o))))).foldl
          (applyPair home away) s := by
  intro bs
  induction bs with
  | nil => intro s; rfl
  | cons b t ih =>
    intro s
    rw [List.foldl_cons, ih (scanBookmaker home away s b),
      show scanBookmaker home away s b = b.markets.foldl (scanMarket home away) s from rfl,
      foldl_markets, List.flatMap_cons, List.foldl_append]

theorem scanEvent_pairs {P : Type} (ev : OddsEvent P) :
    scanEvent ev =
      (marketOutcomePairs ev).foldl (applyPair ev.home_team ev.away_team)
        ⟨none, none, none, none⟩ := by
  unfold scanEvent marketOutcomePairs
  rw [foldl_books]

theorem foldl_applyPair_fields {P : Type} (home away : PyStr) :
    ∀ (l : List (Option PyStr × Outcome P)) (s : ScanState P),
      l.foldl (applyPair home away) s =
        { best_home_ml := l.foldl (fun acc x => optOr (mlHomeMatch home x.1 x.2) acc)
            s.best_home_ml
          best_away_ml := l.foldl (fun acc x => optOr (mlAwayMatch home away x.1 x.2) acc)
            s.best_away_ml
          best_spread := l.foldl (fun acc x => optOr (spreadMatch home x.1 x.2) acc)
            s.best_spread
          best_total := l.foldl (fun acc x => optOr (totalMatch x.1 x.2) acc)
            s.best_total } := by
  intro l
  induction l with
  | nil => intro s; rfl
  | cons x t ih =>
    intro s
    simp only [List.foldl_cons]
    rw [ih]
    rfl

/-- C1 (amended): the per-event reducer is LAST-seen-wins, not first-seen-wins:
after the scan, each of the four locals holds the value of the last traversal
step that quoted it — the last non-null home (resp. away) h2h price, the last
home-named spread pair, and the last Over-named total pair, in bookmaker
traversal order; earlier quotes for the same side are overwritten. -/
theorem c1_last_quote_wins {P : Type} (ev : OddsEvent P) :
    scanEvent ev =
      { best_home_ml := lastOpt ((marketOutcomePairs ev).filterMap
          (fun x => mlHomeMatch ev.home_team x.1 x.2))
        best_away_ml := lastOpt ((marketOutcomePairs ev).filterMap
          (fun x => mlAwayMatch ev.home_team ev.away_team x.1 x.2))
        best_spread := lastOpt ((marketOutcomePairs ev).filterMap
          (fun x => spreadMatch ev.home_team x.1 x.2))
        best_total := lastOpt ((marketOutcomePairs ev).filterMap
          (fun x => totalMatch x.1 x.2)) } := by
  rw [scanEvent_pairs, foldl_applyPair_fields]
  congr 1
  · exact (foldl_optOr _ _ _).trans (optOr_none_right _)
  · exact (foldl_optOr _ _ _).trans (optOr_none_right _)
  · exact (foldl_optOr _ _ _).trans (optOr_none_right _)
  · exact (foldl_optOr _ _ _).trans (optOr_none_right _)
